import Mathlib

/-!
Verification of the Kotatogram popup-menu widget (`src/ui/widgets/menu.cpp`)
and of the JSON settings writer (`src/Telegram/SourceFiles/core/kotato_settings.cpp`)
against their natural-language specification.

The C++ is shallowly embedded: strings become `List Char`, the widget state
becomes an explicit record, Qt signal side effects become returned event lists,
and the single-shot write timer becomes an `Option Nat` field.
-/

namespace Menu

/-! ## Accelerator parsing (`ParseMenuItem`, menu.cpp lines 18-41) -/

/-- `EntityType` : only `Underline` is produced by `ParseMenuItem`. -/
inductive EntityType where
  | Underline
  deriving DecidableEq, Repr

/-- `EntityInText { type, offset, length }` as appended by `ParseMenuItem`. -/
structure EntityInText where
  etype : EntityType
  offset : Nat
  length : Nat
  deriving DecidableEq, Repr

/-- `TextWithEntities` result value. -/
structure TextWithEntities where
  text : List Char
  entities : List EntityInText
  deriving DecidableEq, Repr

/-- Loop state of `ParseMenuItem`: the partial `result` plus the local
`afterAmpersand` flag. -/
structure ParseState where
  text : List Char
  entities : List EntityInText
  afterAmpersand : Bool
  deriving DecidableEq, Repr

/-- One iteration of the `for (const auto ch : text)` loop of `ParseMenuItem`. -/
def parseStep (st : ParseState) (ch : Char) : ParseState :=
  if st.afterAmpersand then
    if ch = '&' then
      { st with text := st.text ++ [ch], afterAmpersand := false }
    else
      { text := st.text ++ [ch]
        entities := st.entities ++ [⟨EntityType.Underline, st.text.length, 1⟩]
        afterAmpersand := false }
  else if ch = '&' then
    { st with afterAmpersand := true }
  else
    { st with text := st.text ++ [ch] }

/-- Run the `ParseMenuItem` loop from a given state. -/
def parseRun (st : ParseState) (cs : List Char) : ParseState :=
  cs.foldl parseStep st

/-- The initial state: empty `result`, `afterAmpersand = false`. -/
def parseInit : ParseState := ⟨[], [], false⟩

/-- `ParseMenuItem` (menu.cpp lines 18-41): the final `result`, discarding
the loop-local flag (a trailing unpaired ampersand is silently dropped). -/
def ParseMenuItem (cs : List Char) : TextWithEntities :=
  let st := parseRun parseInit cs
  ⟨st.text, st.entities⟩

/-- `QString::split('\t')` with Qt's default keep-empty-parts behaviour,
as used in `Menu::processAction` (line 180). -/
def splitTab : List Char → List (List Char)
  | [] => [[]]
  | c :: cs =>
    if c = '\t' then [] :: splitTab cs
    else
      match splitTab cs with
      | s :: rest => (c :: s) :: rest
      | [] => [[c]]

/-- Lines 180-183 of `Menu::processAction`: split the raw label on tab,
parse segment 0 as the display text, take segment 1 (if present) as the
shortcut hint. -/
def parseMenuLabel (raw : List Char) : TextWithEntities × List Char :=
  let parts := splitTab raw
  let actionText := parts.headD []
  let actionShortcut := parts.getD 1 []
  (ParseMenuItem actionText, actionShortcut)

/-! Compositionality lemmas for the parse loop. -/

/-- Shift entity offsets by `n` (used to relate a parse continued from a
non-empty accumulated text to a fresh parse). -/
def shiftEntities (es : List EntityInText) (n : Nat) : List EntityInText :=
  es.map (fun e => ⟨e.etype, e.offset + n, e.length⟩)

theorem shiftEntities_append (es fs : List EntityInText) (n : Nat) :
    shiftEntities (es ++ fs) n = shiftEntities es n ++ shiftEntities fs n := by
  simp [shiftEntities]

theorem shiftEntities_shiftEntities (es : List EntityInText) (m n : Nat) :
    shiftEntities (shiftEntities es m) n = shiftEntities es (m + n) := by
  simp only [shiftEntities, List.map_map]
  apply List.map_congr_left
  intro a _
  simp [Nat.add_assoc]

theorem shiftEntities_zero (es : List EntityInText) :
    shiftEntities es 0 = es := by
  simp [shiftEntities]

theorem parseRun_append (st : ParseState) (cs ds : List Char) :
    parseRun st (cs ++ ds) = parseRun (parseRun st cs) ds := by
  simp [parseRun]

/-- The parse loop only appends: running it from state `⟨t, e, a⟩` produces
the run from `⟨[], [], a⟩` spliced onto `t`/`e`, with entity offsets
shifted by `t.length`. -/
theorem parseRun_shift (cs : List Char) (st : ParseState) :
    parseRun st cs =
      ⟨st.text ++ (parseRun ⟨[], [], st.afterAmpersand⟩ cs).text,
       st.entities ++
         shiftEntities (parseRun ⟨[], [], st.afterAmpersand⟩ cs).entities
           st.text.length,
       (parseRun ⟨[], [], st.afterAmpersand⟩ cs).afterAmpersand⟩ := by
  induction cs generalizing st with
  | nil => simp [parseRun, shiftEntities]
  | cons c cs ih =>
    have l1 : parseRun st (c :: cs) = parseRun (parseStep st c) cs := rfl
    have l2 : parseRun ⟨[], [], st.afterAmpersand⟩ (c :: cs)
        = parseRun (parseStep ⟨[], [], st.afterAmpersand⟩ c) cs := rfl
    rw [l1, l2, ih (parseStep st c), ih (parseStep ⟨[], [], st.afterAmpersand⟩ c)]
    obtain ⟨t, e, a⟩ := st
    cases a <;> by_cases hc : c = '&' <;>
      (simp [parseStep, hc, shiftEntities_append, shiftEntities_shiftEntities,
        shiftEntities_zero, shiftEntities] <;> intro a _ <;> omega)

/-- The parse loop over `cs` ends with no ampersand pending. -/
def noPendingAmp (cs : List Char) : Prop :=
  (parseRun parseInit cs).afterAmpersand = false

instance (cs : List Char) : Decidable (noPendingAmp cs) := by
  unfold noPendingAmp; infer_instance

/-- Running the loop over `"&&" ++ post` from a state with no pending
ampersand appends one literal `'&'` and no entity, then continues. -/
theorem parseRun_after_ampAmp (st : ParseState) (h : st.afterAmpersand = false)
    (post : List Char) :
    parseRun st ('&' :: '&' :: post) =
      ⟨st.text ++ '&' :: (parseRun parseInit post).text,
       st.entities ++
         shiftEntities (parseRun parseInit post).entities (st.text.length + 1),
       (parseRun parseInit post).afterAmpersand⟩ := by
  obtain ⟨t, e, a⟩ := st
  simp only at h
  subst h
  have hstep : parseRun ⟨t, e, false⟩ ('&' :: '&' :: post)
      = parseRun (parseStep (parseStep ⟨t, e, false⟩ '&') '&') post := rfl
  rw [hstep]
  have h1 : parseStep (parseStep ⟨t, e, false⟩ '&') '&'
      = ⟨t ++ ['&'], e, false⟩ := by
    simp [parseStep]
  rw [h1, parseRun_shift post]
  simp [parseInit]

/-- Running the loop over `['&', c] ++ post` (`c ≠ '&'`) from a state with no
pending ampersand appends `c` with an underline entity at the current
length, then continues. -/
theorem parseRun_after_accel (st : ParseState) (h : st.afterAmpersand = false)
    (c : Char) (hc : c ≠ '&') (post : List Char) :
    parseRun st ('&' :: c :: post) =
      ⟨st.text ++ c :: (parseRun parseInit post).text,
       st.entities ++ ⟨EntityType.Underline, st.text.length, 1⟩ ::
         shiftEntities (parseRun parseInit post).entities (st.text.length + 1),
       (parseRun parseInit post).afterAmpersand⟩ := by
  obtain ⟨t, e, a⟩ := st
  simp only at h
  subst h
  have hstep : parseRun ⟨t, e, false⟩ ('&' :: c :: post)
      = parseRun (parseStep (parseStep ⟨t, e, false⟩ '&') c) post := rfl
  rw [hstep]
  have h1 : parseStep (parseStep ⟨t, e, false⟩ '&') c
      = ⟨t ++ [c], e ++ [⟨EntityType.Underline, t.length, 1⟩], false⟩ := by
    simp [parseStep, hc]
  rw [h1, parseRun_shift post]
  simp [parseInit]

/-! ## Menu widget state (`Menu`, menu.cpp lines 52-522)

Style metrics (`style::Menu`) are nonnegative pixel dimensions; the two text
measurement functions (`Text::String::maxWidth`, `style::font::width`) are kept
abstract as fields of the style record. -/

structure MenuStyle where
  skip : Nat
  itemPaddingLeft : Nat
  itemPaddingTop : Nat
  itemPaddingRight : Nat
  itemPaddingBottom : Nat
  fontHeight : Nat
  separatorPaddingTop : Nat
  separatorPaddingBottom : Nat
  separatorWidth : Nat
  arrowWidth : Nat
  toggleWidth : Nat
  itemToggleShift : Nat
  widthMin : Int
  widthMax : Int
  /-- `data.text.maxWidth()` measured on the parsed display text. -/
  textMaxWidth : List Char → Int
  /-- `_st.itemStyle.font->width(...)` for the shortcut string. -/
  fontWidth : List Char → Int

/-- `_itemHeight` (ctor, line 66). -/
def MenuStyle.itemHeight (st : MenuStyle) : Nat :=
  st.itemPaddingTop + st.fontHeight + st.itemPaddingBottom

/-- `_separatorHeight` (ctor, line 67). -/
def MenuStyle.separatorHeight (st : MenuStyle) : Nat :=
  st.separatorPaddingTop + st.separatorWidth + st.separatorPaddingBottom

/-- One `QAction` as the menu observes it, plus the `hasSubmenu` bit cached
in `ActionData`. -/
structure MAction where
  text : List Char
  enabled : Bool
  separator : Bool
  checkable : Bool
  hasSubmenu : Bool
  deriving DecidableEq, Repr

instance : Inhabited MAction := ⟨⟨[], true, false, false, false⟩⟩

/-- Per-item height used by layout, painting and hit testing. -/
def actionHeight (st : MenuStyle) (a : MAction) : Nat :=
  if a.separator then st.separatorHeight else st.itemHeight

/-- Height of a list of actions (the painted item stack). -/
def heightsSum (st : MenuStyle) (acts : List MAction) : Nat :=
  (acts.map (actionHeight st)).sum

/-- `std::clamp(v, lo, hi)` on `int`. -/
def clampI (v lo hi : Int) : Int :=
  if v < lo then lo else if hi < v then hi else v

/-- The "required width" `goodw` computed by `Menu::processAction`
(lines 184-202) for a non-separator action with non-empty text. -/
def goodWidth (st : MenuStyle) (a : MAction) : Int :=
  let parts := splitTab a.text
  let actionText := parts.headD []
  let actionShortcut := parts.getD 1 []
  let textw := st.textMaxWidth (ParseMenuItem actionText).text
  let base : Int := st.itemPaddingLeft + textw + st.itemPaddingRight
  let withTrailing :=
    if a.hasSubmenu then
      base + st.itemPaddingRight + st.arrowWidth
    else if actionShortcut ≠ [] then
      base + st.itemPaddingRight + st.fontWidth actionShortcut
    else base
  if a.checkable then
    withTrailing + st.itemPaddingRight + (st.toggleWidth : Int) - st.itemToggleShift
  else withTrailing

/-- `Menu::processAction`'s effect on the accumulated width (lines 174-207):
separators and empty-text actions leave it unchanged; otherwise the required
width is clamped between the running width and `_st.widthMax`. -/
def processActionWidth (st : MenuStyle) (a : MAction) (w : Int) : Int :=
  if a.separator ∨ a.text = [] then w
  else clampI (goodWidth st a) w st.widthMax

/-- `Menu::actionChanged` (lines 224-237): the from-scratch width recompute,
folding `processAction` over all actions starting from `_st.widthMin`. -/
def menuWidth (st : MenuStyle) (acts : List MAction) : Int :=
  acts.foldl (fun w a => processActionWidth st a w) st.widthMin

/-- The widget state: the action list, the interaction indices, the two mouse
flags and the cached size. `selected`/`pressed` are C++ `int`s. -/
structure MenuState where
  actions : List MAction
  selected : Int
  pressed : Int
  mouseSelection : Bool
  childShown : Bool
  width : Int
  height : Nat
  deriving Repr

/-- `_actions[i]` : indexing with a C++ `int`; out-of-range reads are
undefined behaviour in the source and return a default here (the state
machine never performs them thanks to the index invariant). -/
def aget (acts : List MAction) (i : Int) : MAction :=
  if h : 0 ≤ i ∧ i.toNat < acts.length then acts.get ⟨i.toNat, h.2⟩
  else default

/-- `if (selected >= _actions.size()) selected = -1;` (lines 421-423, 445-447).
`selected` is an `int` and `size()` a `size_t`, so the comparison converts
negatives to huge unsigned values: every index outside `[0, size)` becomes
`-1`. -/
def normIdx (i : Int) (n : Nat) : Int :=
  if 0 ≤ i ∧ i < n then i else -1

/-- `Menu::setSelected` (lines 420-442), state effect only (the toggle
restyle and the activated callback are visual/signal side effects). -/
def setSelected (s : MenuState) (i : Int) : MenuState :=
  { s with selected := normIdx i s.actions.length }

/-- `Menu::setPressed` (lines 444-457), state effect only. -/
def setPressed (s : MenuState) (i : Int) : MenuState :=
  { s with pressed := normIdx i s.actions.length }

/-- Empty-menu height `_st.skip * 2` (init, line 89; clearActions, line 157). -/
def emptyHeight (st : MenuStyle) : Nat := 2 * st.skip

/-- `Menu::clearActions` (lines 148-161): reset both indices first, then
drop the actions and shrink to the empty size. -/
def clearActions (st : MenuStyle) (s : MenuState) : MenuState :=
  let s := setSelected s (-1)
  let s := setPressed s (-1)
  { s with actions := [], width := st.widthMin, height := emptyHeight st }

/-- The scan loop of `Menu::updateSelected` (lines 311-314): starting from
`selected = -1, top = 0`, advance while `top <= p` and more items remain;
returns a value in `[-1, actions.length]`. -/
def hitGo (st : MenuStyle) : List MAction → Int → Int → Int
  | [], _, k => k
  | a :: rest, p, k =>
    if p < (actionHeight st a : Int) then k
    else hitGo st rest (p - actionHeight st a) (k + 1)

def hitScan (st : MenuStyle) (acts : List MAction) (p : Int) : Int :=
  if p < 0 then -1 else hitGo st acts p 0

/-- `Menu::updateSelected` (lines 307-316). The global→local mapping
(`mapFromGlobal`) is the identity in this model: `y` is the widget-local
vertical coordinate of the pointer. -/
def updateSelected (st : MenuStyle) (y : Int) (s : MenuState) : MenuState :=
  if ¬s.mouseSelection then s
  else
    let p := y - st.skip
    let sel := hitScan st s.actions p
    setSelected s
      (if 0 ≤ sel ∧ sel < s.actions.length ∧ (aget s.actions sel).enabled
          ∧ ¬(aget s.actions sel).separator
        then sel else -1)

/-- `Menu::addAction` (lines 116-140), with `_forceWidth` unset: append,
extend width and height, then re-evaluate the hover at the pointer. -/
def addAction (st : MenuStyle) (y : Int) (s : MenuState) (a : MAction) :
    MenuState :=
  let actions := s.actions ++ [a]
  let newWidth := processActionWidth st a (max s.width st.widthMin)
  let s := { s with
    actions := actions
    width := newWidth
    height := s.height + actionHeight st a }
  updateSelected st y s

/-- `Menu::setShowSource` (lines 210-213). -/
inductive TriggeredSource where
  | Mouse
  | Keyboard
  deriving DecidableEq, Repr

def setShowSource (s : MenuState) (source : TriggeredSource) : MenuState :=
  let s := { s with mouseSelection := source = TriggeredSource.Mouse }
  setSelected s
    (if source = TriggeredSource.Mouse ∨ s.actions.isEmpty then -1 else 0)

/-- `Menu::itemTop` (lines 459-468): `skip` plus the heights of the first
`index` items (an `index` past the end is clamped to the end; a negative
`index` sums nothing). -/
def itemTop (st : MenuStyle) (acts : List MAction) (index : Int) : Int :=
  st.skip + heightsSum st (acts.take index.toNat)

/-- One invocation of `_triggeredCallback(_actions[_selected],
itemTop(_selected), source)` (line 346). -/
structure TriggeredEvent where
  action : MAction
  top : Int
  source : TriggeredSource
  deriving DecidableEq, Repr

/-- `Menu::itemReleased` (lines 338-349): if `pressed` is valid, reset it to
`-1` and fire the triggered callback when it still equals `selected` (ripple
`lastStop` is visual only). -/
def itemReleased (st : MenuStyle) (source : TriggeredSource) (s : MenuState) :
    MenuState × List TriggeredEvent :=
  if 0 ≤ s.pressed ∧ s.pressed < s.actions.length then
    let pressed := s.pressed
    let s := setPressed s (-1)
    if pressed = s.selected then
      (s, [⟨aget s.actions s.selected, itemTop st s.actions s.selected, source⟩])
    else (s, [])
  else (s, [])

/-- `Menu::itemPressed` (lines 318-336): mouse presses require mouse-selection
mode; a valid enabled selection becomes `pressed` (the mouse path adds a
ripple, visual only; the keyboard path releases immediately). -/
def itemPressed (st : MenuStyle) (source : TriggeredSource) (s : MenuState) :
    MenuState × List TriggeredEvent :=
  if source = TriggeredSource.Mouse ∧ ¬s.mouseSelection then (s, [])
  else if 0 ≤ s.selected ∧ s.selected < s.actions.length
      ∧ (aget s.actions s.selected).enabled then
    let s := setPressed s s.selected
    if source = TriggeredSource.Mouse then (s, [])
    else itemReleased st source s
  else (s, [])

/-! ### Keyboard navigation (`Menu::handleKeyPress`, lines 358-394) -/

inductive MKey where
  | up
  | down
  | enter
  | ret
  | right
  | left
  | other
  deriving DecidableEq, Repr

/-- `_actions[i]->isEnabled() && !_actions[i]->isSeparator()` : the condition
under which the scan and the final guard accept index `i`. -/
def okAt (acts : List MAction) (i : Int) : Bool :=
  (aget acts i).enabled && !(aget acts i).separator

/-- One wrapping step `newSelected += delta; if (< 0) += size; if (>= size)
-= size;` (lines 382-387). -/
def navStep (n : Nat) (delta i : Int) : Int :=
  let j := i + delta
  if j < 0 then j + n
  else if j ≥ (n : Int) then j - n
  else j

/-- The `do ... while (newSelected != start && not ok)` loop body repeated
with fuel; fuel `n` always suffices because after `n` steps the scan is back
at `start`. -/
def navGo (acts : List MAction) (delta start : Int) : Nat → Int → Int
  | 0, i => i
  | fuel + 1, i =>
    if i = start ∨ okAt acts i then i
    else navGo acts delta start fuel (navStep acts.length delta i)

/-- The whole do-while loop: take one step from `start`, then loop. -/
def navigate (acts : List MAction) (delta start : Int) : Int :=
  navGo acts delta start acts.length (navStep acts.length delta start)

/-- `Menu::handleKeyPress` (lines 358-394). `rtl` is `style::RightToLeft()`. -/
def handleKeyPress (st : MenuStyle) (rtl : Bool) (key : MKey) (s : MenuState) :
    MenuState × List TriggeredEvent :=
  if key = MKey.enter ∨ key = MKey.ret then
    itemPressed st TriggeredSource.Keyboard s
  else if key = (if rtl then MKey.left else MKey.right)
      ∧ 0 ≤ s.selected ∧ (aget s.actions s.selected).hasSubmenu then
    itemPressed st TriggeredSource.Keyboard s
  else
    let s :=
      if key = (if rtl then MKey.left else MKey.right)
          ∧ s.selected < 0 ∧ s.actions ≠ [] then
        setSelected { s with mouseSelection := false } 0
      else s
    if (key ≠ MKey.up ∧ key ≠ MKey.down) ∨ s.actions = [] then (s, [])
    else
      let n := s.actions.length
      let delta : Int := if key = MKey.down then 1 else -1
      let start : Int :=
        if s.selected < 0 ∨ s.selected ≥ (n : Int) then
          if delta > 0 then (n : Int) - 1 else 0
        else s.selected
      let newSelected := navigate s.actions delta start
      if okAt s.actions newSelected then
        (setSelected { s with mouseSelection := false } newSelected, [])
      else (s, [])

/-! ### Pointer handling (lines 396-521) -/

/-- `Menu::clearSelection` (lines 396-399). -/
def clearSelection (s : MenuState) : MenuState :=
  setSelected { s with mouseSelection := false } (-1)

/-- `Menu::clearMouseSelection` (lines 401-405). -/
def clearMouseSelection (s : MenuState) : MenuState :=
  if s.mouseSelection ∧ ¬s.childShown then clearSelection s else s

/-- `QRect(0, skip, width, height - 2 * skip).contains(x, y)` : QRect
containment is inclusive of all four edges and false on an empty rectangle. -/
def innerContains (st : MenuStyle) (s : MenuState) (x y : Int) : Prop :=
  0 ≤ x ∧ x < s.width ∧ (st.skip : Int) ≤ y ∧ y < (s.height : Int) - st.skip

instance (st : MenuStyle) (s : MenuState) (x y : Int) :
    Decidable (innerContains st s x y) := by
  unfold innerContains; infer_instance

/-- `rect().contains(...)` for the full widget rectangle. -/
def rectContains (s : MenuState) (x y : Int) : Prop :=
  0 ≤ x ∧ x < s.width ∧ 0 ≤ y ∧ y < (s.height : Int)

instance (s : MenuState) (x y : Int) : Decidable (rectContains s x y) := by
  unfold rectContains; infer_instance

/-- `Menu::handleMouseMove` (lines 484-496); the mouse-move delegate is an
external signal and not part of the state. -/
def handleMouseMove (st : MenuStyle) (x y : Int) (s : MenuState) : MenuState :=
  if innerContains st s x y then
    updateSelected st y { s with mouseSelection := true }
  else clearMouseSelection s

/-- `Menu::handleMousePress` (lines 506-513). -/
def handleMousePress (st : MenuStyle) (x y : Int) (s : MenuState) :
    MenuState × List TriggeredEvent :=
  let s := handleMouseMove st x y s
  if rectContains s x y then itemPressed st TriggeredSource.Mouse s
  else (s, [])

/-- `Menu::handleMouseRelease` (lines 515-521). -/
def handleMouseRelease (st : MenuStyle) (x y : Int) (s : MenuState) :
    MenuState × List TriggeredEvent :=
  let s := handleMouseMove st x y s
  itemReleased st TriggeredSource.Mouse s

/-- A changed signal from action `i` taking the new value `a`
(`Menu::actionChanged`, lines 224-237): the width is recomputed from scratch
over the updated list; the height is untouched. -/
def actionChangedOp (st : MenuStyle) (i : Nat) (a : MAction) (s : MenuState) :
    MenuState :=
  let actions := s.actions.set i a
  { s with actions := actions, width := menuWidth st actions }

/-! ### The operations of the state machine, for the index invariant. -/

inductive MenuOp where
  | clear
  | append (y : Int) (a : MAction)
  | showSource (source : TriggeredSource)
  | moveMouse (x y : Int)
  | pressMouse (x y : Int)
  | releaseMouse (x y : Int)
  | key (rtl : Bool) (k : MKey)
  | select (i : Int)
  | press (i : Int)
  | deselect
  | changeAction (i : Nat) (a : MAction)

def stepOp (st : MenuStyle) : MenuOp → MenuState → MenuState
  | MenuOp.clear, s => clearActions st s
  | MenuOp.append y a, s => addAction st y s a
  | MenuOp.showSource src, s => setShowSource s src
  | MenuOp.moveMouse x y, s => handleMouseMove st x y s
  | MenuOp.pressMouse x y, s => (handleMousePress st x y s).1
  | MenuOp.releaseMouse x y, s => (handleMouseRelease st x y s).1
  | MenuOp.key rtl k, s => (handleKeyPress st rtl k s).1
  | MenuOp.select i, s => setSelected s i
  | MenuOp.press i, s => setPressed s i
  | MenuOp.deselect, s => clearSelection s
  | MenuOp.changeAction i a, s => actionChangedOp st i a s

/-- The index invariant of claim C7: each of `selected`/`pressed` is `-1` or
a valid index. -/
def validIdx (i : Int) (n : Nat) : Prop :=
  i = -1 ∨ (0 ≤ i ∧ i < n)

def IndexInv (s : MenuState) : Prop :=
  validIdx s.selected s.actions.length ∧ validIdx s.pressed s.actions.length

end Menu

namespace KotatoSettings

/-! ## Settings write debouncing
(`Manager`, kotato_settings.cpp lines 26, 73-94, 177-224)

The single-shot `_jsonWriteTimer` is `some interval` while running; a file
write (`writeCurrentSettings`) bumps `fileWrites`. -/

/-- `kWriteJsonTimeout = crl::time(5000)` (line 26). -/
def kWriteJsonTimeout : Nat := 5000

structure WriterState where
  /-- `some ms` while `_jsonWriteTimer.isActive()`, holding the interval the
  single-shot timer was started with. -/
  pendingTimer : Option Nat
  /-- Number of completed writes of the custom settings file. -/
  fileWrites : Nat
  deriving DecidableEq, Repr

/-- `Manager::writeCurrentSettings` (lines 177-216): stops a still-active
timer (`writing()`), then writes the file once. -/
def writeCurrentSettings (s : WriterState) : WriterState :=
  { pendingTimer := none, fileWrites := s.fileWrites + 1 }

/-- `Manager::writeTimeout` (lines 218-220). -/
def writeTimeout (s : WriterState) : WriterState :=
  writeCurrentSettings s

/-- `Manager::write(force)` (lines 87-94). -/
def write (force : Bool) (s : WriterState) : WriterState :=
  if force ∧ s.pendingTimer.isSome then
    writeTimeout { s with pendingTimer := none }
  else if ¬force ∧ ¬s.pendingTimer.isSome then
    { s with pendingTimer := some kWriteJsonTimeout }
  else s

/-- Expiry of the single-shot timer: it deactivates, then the `timeout`
slot runs `writeTimeout`. -/
def timerFire (s : WriterState) : WriterState :=
  if s.pendingTimer.isSome then writeTimeout { s with pendingTimer := none }
  else s

end KotatoSettings

namespace Menu

/-! ## splitTab lemmas for claim C1 -/

theorem splitTab_no_tab (raw : List Char) (h : '\t' ∉ raw) :
    splitTab raw = [raw] := by
  induction raw with
  | nil => rfl
  | cons c cs ih =>
    have hc : c ≠ '\t' := fun hc => h (hc ▸ List.mem_cons_self c cs)
    have hcs : '\t' ∉ cs := fun hm => h (List.mem_cons_of_mem c hm)
    simp [splitTab, hc, ih hcs]

theorem splitTab_first (pre post : List Char) (h : '\t' ∉ pre) :
    splitTab (pre ++ '\t' :: post) = pre :: splitTab post := by
  induction pre with
  | nil => simp [splitTab]
  | cons c cs ih =>
    have hc : c ≠ '\t' := fun hc => h (hc ▸ List.mem_cons_self c cs)
    have hcs : '\t' ∉ cs := fun hm => h (List.mem_cons_of_mem c hm)
    simp only [List.cons_append, splitTab, List.append_eq, if_neg hc, ih hcs]

/-! ## Claim theorems -/

/-- C1: in the raw label the segment before the first tab is the display
text and the segment after it is the shortcut hint; within the display text
`"&&"` renders as one literal ampersand with no underline entity, and
`'&'` followed by any other character is stripped while that character gets
an underline entity; `"&Open\tCtrl+O"` yields display `"Open"` underlined at
character 0 with shortcut `"Ctrl+O"`, and `"A&&B"` yields `"A&B"` with no
entity. -/
theorem C1_menu_item_label_parsing :
    (∀ pre post : List Char, '\t' ∉ pre → '\t' ∉ post →
      parseMenuLabel (pre ++ '\t' :: post) = (ParseMenuItem pre, post)) ∧
    (∀ raw : List Char, '\t' ∉ raw →
      parseMenuLabel raw = (ParseMenuItem raw, [])) ∧
    (∀ pre post : List Char, noPendingAmp pre →
      ParseMenuItem (pre ++ '&' :: '&' :: post) =
        ⟨(ParseMenuItem pre).text ++ '&' :: (ParseMenuItem post).text,
         (ParseMenuItem pre).entities ++
           shiftEntities (ParseMenuItem post).entities
             ((ParseMenuItem pre).text.length + 1)⟩) ∧
    (∀ (pre : List Char) (c : Char) (post : List Char), noPendingAmp pre →
      c ≠ '&' →
      ParseMenuItem (pre ++ '&' :: c :: post) =
        ⟨(ParseMenuItem pre).text ++ c :: (ParseMenuItem post).text,
         (ParseMenuItem pre).entities ++
           ⟨EntityType.Underline, (ParseMenuItem pre).text.length, 1⟩ ::
             shiftEntities (ParseMenuItem post).entities
               ((ParseMenuItem pre).text.length + 1)⟩) ∧
    parseMenuLabel "&Open\tCtrl+O".toList =
      (⟨"Open".toList, [⟨EntityType.Underline, 0, 1⟩]⟩, "Ctrl+O".toList) ∧
    parseMenuLabel "A&&B".toList = (⟨"A&B".toList, []⟩, []) := by
  refine ⟨?_, ?_, ?_, ?_, by decide, by decide⟩
  · intro pre post hpre hpost
    simp [parseMenuLabel, splitTab_first pre post hpre, splitTab_no_tab post hpost]
  · intro raw hraw
    simp [parseMenuLabel, splitTab_no_tab raw hraw]
  · intro pre post hpre
    show (let st := parseRun parseInit (pre ++ '&' :: '&' :: post);
          (⟨st.text, st.entities⟩ : TextWithEntities)) = _
    rw [parseRun_append, parseRun_after_ampAmp _ hpre]
    simp [ParseMenuItem]
  · intro pre c post hpre hc
    show (let st := parseRun parseInit (pre ++ '&' :: c :: post);
          (⟨st.text, st.entities⟩ : TextWithEntities)) = _
    rw [parseRun_append, parseRun_after_accel _ hpre c hc]
    simp [ParseMenuItem]

theorem C1_menu_item_label_parsing_witness :
    ('\t' ∉ ['a']) ∧ ('\t' ∉ ['b']) ∧
    parseMenuLabel (['a'] ++ '\t' :: ['b']) = (ParseMenuItem ['a'], ['b']) ∧
    noPendingAmp ['A'] ∧
    ParseMenuItem (['A'] ++ '&' :: '&' :: ['B']) =
      ⟨(ParseMenuItem ['A']).text ++ '&' :: (ParseMenuItem ['B']).text,
       (ParseMenuItem ['A']).entities ++
         shiftEntities (ParseMenuItem ['B']).entities
           ((ParseMenuItem ['A']).text.length + 1)⟩ ∧
    (('O' : Char) ≠ '&') ∧
    ParseMenuItem ([] ++ '&' :: 'O' :: ['k']) =
      ⟨(ParseMenuItem []).text ++ 'O' :: (ParseMenuItem ['k']).text,
       (ParseMenuItem []).entities ++
         ⟨EntityType.Underline, (ParseMenuItem []).text.length, 1⟩ ::
           shiftEntities (ParseMenuItem ['k']).entities
             ((ParseMenuItem []).text.length + 1)⟩ :=
  ⟨by decide, by decide,
   C1_menu_item_label_parsing.1 ['a'] ['b'] (by decide) (by decide),
   by decide,
   C1_menu_item_label_parsing.2.2.1 ['A'] ['B'] (by decide),
   by decide,
   C1_menu_item_label_parsing.2.2.2.1 [] 'O' ['k'] (by decide) (by decide)⟩

/-- C10: a label whose display text ends in a single unpaired trailing
ampersand parses exactly like the label without it: the trailing `'&'`
reaches neither the rendered text nor any underline entity, and parsing is
total. -/
theorem C10_trailing_ampersand_dropped (s : List Char) (h : noPendingAmp s) :
    ParseMenuItem (s ++ ['&']) = ParseMenuItem s := by
  show (let st := parseRun parseInit (s ++ ['&']);
        (⟨st.text, st.entities⟩ : TextWithEntities)) = _
  rw [parseRun_append]
  have h' : (parseRun parseInit s).afterAmpersand = false := h
  show (⟨(parseStep (parseRun parseInit s) '&').text,
         (parseStep (parseRun parseInit s) '&').entities⟩ : TextWithEntities) = _
  simp [parseStep, h', ParseMenuItem]

theorem C10_trailing_ampersand_dropped_witness :
    noPendingAmp "Open".toList ∧
    ParseMenuItem ("Open".toList ++ ['&']) = ParseMenuItem "Open".toList :=
  ⟨by decide, C10_trailing_ampersand_dropped "Open".toList (by decide)⟩

/-- C8: opening via pointer starts with no selection; opening via keyboard
selects the first item, or nothing when the action list is empty. -/
theorem C8_show_source_initial_selection (s : MenuState) :
    (setShowSource s TriggeredSource.Mouse).selected = -1 ∧
    (setShowSource s TriggeredSource.Keyboard).selected =
      (if s.actions = [] then -1 else 0) := by
  constructor
  · simp [setShowSource, setSelected, normIdx]
  · rcases s.actions.eq_nil_or_concat with h | ⟨as, a, h⟩ <;>
      simp [setShowSource, setSelected, normIdx, h]

end Menu

namespace KotatoSettings

/-- C9 counterexample: a forced write issued while no write is pending does
not write the settings file (the claim says a forced write always writes
immediately). -/
theorem C9_forced_write_noop_counterexample :
    write true ⟨none, 0⟩ = ⟨none, 0⟩ ∧ (write true ⟨none, 0⟩).fileWrites ≠ 1 := by
  constructor <;> decide

/-- C9 (amended): a non-forced request while no write is pending starts a
single-shot 5000 ms timer and writes nothing; a forced write with a pending
timer stops it and writes the file immediately; a forced write with no
pending timer does nothing; a non-forced request while a write is pending
leaves the running timer untouched; the timer itself writes once on expiry
and deactivates. -/
theorem C9_write_debounce (s : WriterState) :
    (s.pendingTimer = none →
      write false s = { s with pendingTimer := some 5000 } ∧
      kWriteJsonTimeout = 5000) ∧
    (s.pendingTimer.isSome →
      write true s = ⟨none, s.fileWrites + 1⟩) ∧
    (s.pendingTimer = none → write true s = s) ∧
    (s.pendingTimer.isSome → write false s = s) ∧
    (s.pendingTimer.isSome →
      timerFire s = ⟨none, s.fileWrites + 1⟩) := by
  obtain ⟨p, w⟩ := s
  cases p <;>
    simp [write, timerFire, writeTimeout, writeCurrentSettings, kWriteJsonTimeout]

theorem C9_write_debounce_witness :
    ((none : Option Nat) = none ∧
      write false ⟨none, 3⟩ = ⟨some 5000, 3⟩ ∧ kWriteJsonTimeout = 5000) ∧
    ((some kWriteJsonTimeout : Option Nat).isSome ∧
      write true ⟨some kWriteJsonTimeout, 3⟩ = ⟨none, 4⟩) :=
  ⟨⟨rfl, ((C9_write_debounce ⟨none, 3⟩).1 rfl).1,
      ((C9_write_debounce ⟨none, 3⟩).1 rfl).2⟩,
   ⟨by decide, (C9_write_debounce ⟨some kWriteJsonTimeout, 3⟩).2.1 (by decide)⟩⟩

end KotatoSettings


namespace Menu

/-! ## Keyboard-navigation analysis for claim C2 -/

/-- The scan position after `k` wrapping steps of `delta` from `start`. -/
def navPos (n : Nat) (delta start : Int) : Nat → Int
  | 0 => start
  | k + 1 => navStep n delta (navPos n delta start k)

theorem navPos_succ (n : Nat) (delta start : Int) (k : Nat) :
    navPos n delta start (k + 1) = navStep n delta (navPos n delta start k) := rfl

theorem navPos_formula_pos (n : Nat) (start : Int) (hn : 1 ≤ n)
    (hs : 0 ≤ start ∧ start < n) :
    ∀ k : Nat, k ≤ n →
      navPos n 1 start k =
        if start + k < n then start + k else start + k - n := by
  intro k hk
  induction k with
  | zero =>
    simp only [navPos, Nat.cast_zero, Int.add_zero]
    rw [if_pos hs.2]
  | succ k ih =>
    have hk' : k ≤ n := Nat.le_of_succ_le hk
    rw [navPos_succ, ih hk']
    simp only [navStep]
    split_ifs <;> omega

theorem navPos_formula_neg (n : Nat) (start : Int) (hn : 1 ≤ n)
    (hs : 0 ≤ start ∧ start < n) :
    ∀ k : Nat, k ≤ n →
      navPos n (-1) start k =
        if 0 ≤ start - k then start - k else start - k + n := by
  intro k hk
  induction k with
  | zero =>
    simp only [navPos, Nat.cast_zero, Int.sub_zero]
    rw [if_pos hs.1]
  | succ k ih =>
    have hk' : k ≤ n := Nat.le_of_succ_le hk
    rw [navPos_succ, ih hk']
    simp only [navStep]
    split_ifs <;> omega

theorem navPos_bounds (n : Nat) (delta start : Int)
    (hδ : delta = 1 ∨ delta = -1) (hn : 1 ≤ n) (hs : 0 ≤ start ∧ start < n)
    (k : Nat) (hk : k ≤ n) :
    0 ≤ navPos n delta start k ∧ navPos n delta start k < n := by
  rcases hδ with h | h <;> subst h
  · rw [navPos_formula_pos n start hn hs k hk]; split_ifs <;> omega
  · rw [navPos_formula_neg n start hn hs k hk]; split_ifs <;> omega

theorem navPos_n (n : Nat) (delta start : Int)
    (hδ : delta = 1 ∨ delta = -1) (hn : 1 ≤ n) (hs : 0 ≤ start ∧ start < n) :
    navPos n delta start n = start := by
  rcases hδ with h | h <;> subst h
  · rw [navPos_formula_pos n start hn hs n (le_refl n)]; split_ifs <;> omega
  · rw [navPos_formula_neg n start hn hs n (le_refl n)]; split_ifs <;> omega

theorem navPos_ne_start (n : Nat) (delta start : Int)
    (hδ : delta = 1 ∨ delta = -1) (hn : 1 ≤ n) (hs : 0 ≤ start ∧ start < n)
    (k : Nat) (hk1 : 1 ≤ k) (hk2 : k < n) :
    navPos n delta start k ≠ start := by
  rcases hδ with h | h <;> subst h
  · rw [navPos_formula_pos n start hn hs k (le_of_lt hk2)]
    split_ifs <;> omega
  · rw [navPos_formula_neg n start hn hs k (le_of_lt hk2)]
    split_ifs <;> omega

/-- Every index is reached within `n` steps of the wrapping scan. -/
theorem navPos_surj (n : Nat) (delta start : Int)
    (hδ : delta = 1 ∨ delta = -1) (hn : 1 ≤ n) (hs : 0 ≤ start ∧ start < n)
    (j : Int) (hj : 0 ≤ j ∧ j < n) :
    ∃ k : Nat, 1 ≤ k ∧ k ≤ n ∧ navPos n delta start k = j := by
  rcases hδ with h | h <;> subst h
  · set d : Int := if start < j then j - start else j - start + n with hd
    have hd1 : 1 ≤ d ∧ d ≤ n ∧ (start + d = j ∨ start + d = j + n) := by
      rw [hd]; split_ifs <;> omega
    refine ⟨d.toNat, by omega, by omega, ?_⟩
    have hcast : (d.toNat : Int) = d := Int.toNat_of_nonneg (by omega)
    rw [navPos_formula_pos n start hn hs d.toNat (by omega), hcast]
    split_ifs <;> omega
  · set d : Int := if j < start then start - j else start - j + n with hd
    have hd1 : 1 ≤ d ∧ d ≤ n ∧ (start - d = j ∨ start - d = j - n) := by
      rw [hd]; split_ifs <;> omega
    refine ⟨d.toNat, by omega, by omega, ?_⟩
    have hcast : (d.toNat : Int) = d := Int.toNat_of_nonneg (by omega)
    rw [navPos_formula_neg n start hn hs d.toNat (by omega), hcast]
    split_ifs <;> omega

/-- What the `do … while` scan computes: it stops at the position of the
first acceptable index at step `m ≥ k`, or back at `start` after a full
cycle; every strictly earlier step was not acceptable. -/
theorem navGo_spec (acts : List MAction) (delta start : Int)
    (hδ : delta = 1 ∨ delta = -1) (hn : 1 ≤ acts.length)
    (hs : 0 ≤ start ∧ start < acts.length) :
    ∀ (fuel k : Nat), 1 ≤ k → k ≤ acts.length → acts.length ≤ k + fuel →
      ∃ m : Nat, k ≤ m ∧ m ≤ acts.length ∧
        navGo acts delta start fuel (navPos acts.length delta start k) =
          navPos acts.length delta start m ∧
        (okAt acts (navPos acts.length delta start m) = true ∨ m = acts.length) ∧
        (∀ l, k ≤ l → l < m → okAt acts (navPos acts.length delta start l) = false) := by
  intro fuel
  induction fuel with
  | zero =>
    intro k hk1 hk2 hk3
    have hkn : k = acts.length := by omega
    subst hkn
    exact ⟨acts.length, le_refl _, le_refl _, rfl, Or.inr rfl,
      fun l hl1 hl2 => absurd hl2 (by omega)⟩
  | succ fuel ih =>
    intro k hk1 hk2 hk3
    by_cases hkn : k = acts.length
    · subst hkn
      have hstart : navPos acts.length delta start acts.length = start :=
        navPos_n _ _ _ hδ hn hs
      refine ⟨acts.length, le_refl _, le_refl _, ?_, Or.inr rfl,
        fun l hl1 hl2 => absurd hl2 (by omega)⟩
      show (if _ = start ∨ _ then _ else _) = _
      rw [if_pos (Or.inl hstart)]
    · have hklt : k < acts.length := lt_of_le_of_ne hk2 hkn
      have hne : navPos acts.length delta start k ≠ start :=
        navPos_ne_start _ _ _ hδ hn hs k hk1 hklt
      by_cases hok : okAt acts (navPos acts.length delta start k) = true
      · refine ⟨k, le_refl _, hk2, ?_, Or.inl hok,
          fun l hl1 hl2 => absurd hl2 (by omega)⟩
        show (if _ ∨ _ then _ else _) = _
        rw [if_pos (Or.inr hok)]
      · obtain ⟨m, hm1, hm2, hm3, hm4, hm5⟩ :=
          ih (k + 1) (by omega) (by omega) (by omega)
        refine ⟨m, by omega, hm2, ?_, hm4, ?_⟩
        · show (if _ ∨ _ then _ else _) = _
          rw [if_neg (by push_neg; exact ⟨hne, hok⟩)]
          rw [← navPos_succ]
          exact hm3
        · intro l hl1 hl2
          rcases Nat.eq_or_lt_of_le hl1 with h | h
          · rw [← h]; exact Bool.not_eq_true _ ▸ (by simpa using hok)
          · exact hm5 l (by omega) hl2

/-- The whole `do … while` loop (`navigate`): its result is `navPos m` for
the least `m ∈ [1, n]` that is acceptable or completes the cycle. -/
theorem navigate_spec (acts : List MAction) (delta start : Int)
    (hδ : delta = 1 ∨ delta = -1) (hn : 1 ≤ acts.length)
    (hs : 0 ≤ start ∧ start < acts.length) :
    ∃ m : Nat, 1 ≤ m ∧ m ≤ acts.length ∧
      navigate acts delta start = navPos acts.length delta start m ∧
      (okAt acts (navPos acts.length delta start m) = true ∨ m = acts.length) ∧
      (∀ l, 1 ≤ l → l < m → okAt acts (navPos acts.length delta start l) = false) := by
  have h := navGo_spec acts delta start hδ hn hs acts.length 1 (le_refl 1) hn
    (by omega)
  have e : navigate acts delta start
      = navGo acts delta start acts.length (navPos acts.length delta start 1) := rfl
  rw [e]
  exact h

/-- Index `i` denotes an existing, enabled, non-separator action. -/
def selectableIdx (acts : List MAction) (i : Int) : Prop :=
  0 ≤ i ∧ i < acts.length ∧ okAt acts i = true

instance (acts : List MAction) (i : Int) : Decidable (selectableIdx acts i) := by
  unfold selectableIdx; infer_instance

/-- `handleKeyPress` on Up/Down with a non-empty list reduces to the
navigation scan. -/
theorem handleKeyPress_up_down (st : MenuStyle) (rtl : Bool) (key : MKey)
    (hkey : key = MKey.up ∨ key = MKey.down) (s : MenuState)
    (hne : s.actions ≠ []) (delta start : Int)
    (hdelta : delta = if key = MKey.down then 1 else -1)
    (hstart : start =
      if s.selected < 0 ∨ s.selected ≥ (s.actions.length : Int) then
        (if delta > 0 then (s.actions.length : Int) - 1 else 0)
      else s.selected) :
    handleKeyPress st rtl key s =
      if okAt s.actions (navigate s.actions delta start) then
        (setSelected { s with mouseSelection := false }
          (navigate s.actions delta start), [])
      else (s, []) := by
  subst hdelta
  subst hstart
  rcases hkey with h | h <;> subst h <;> cases rtl <;>
    simp [handleKeyPress, hne]

/-- `handleKeyPress` on Up/Down with an empty list is a no-op. -/
theorem handleKeyPress_up_down_empty (st : MenuStyle) (rtl : Bool) (key : MKey)
    (hkey : key = MKey.up ∨ key = MKey.down) (s : MenuState)
    (hemp : s.actions = []) :
    handleKeyPress st rtl key s = (s, []) := by
  rcases hkey with h | h <;> subst h <;> cases rtl <;>
    simp [handleKeyPress, hemp]

/-- C2: Up/Down moves the selection with wraparound by repeated ±1 steps,
skipping entries that are disabled or separators (every position passed
over fails the enabled/non-separator test); whenever any selectable entry
exists the resulting selection is selectable, and if every entry is
disabled or a separator the selection is unchanged. -/
theorem C2_up_down_navigation (st : MenuStyle) (rtl : Bool) (key : MKey)
    (hkey : key = MKey.up ∨ key = MKey.down) (s : MenuState) :
    ((∀ i : Int, ¬selectableIdx s.actions i) →
      ((handleKeyPress st rtl key s).1).selected = s.selected) ∧
    ((∃ i : Int, selectableIdx s.actions i) →
      selectableIdx s.actions ((handleKeyPress st rtl key s).1).selected ∧
      ∃ (delta start : Int) (m : Nat),
        delta = (if key = MKey.down then 1 else -1) ∧
        start = (if s.selected < 0 ∨ s.selected ≥ (s.actions.length : Int)
                 then (if delta > 0 then (s.actions.length : Int) - 1 else 0)
                 else s.selected) ∧
        1 ≤ m ∧ m ≤ s.actions.length ∧
        ((handleKeyPress st rtl key s).1).selected =
          navPos s.actions.length delta start m ∧
        (∀ l, 1 ≤ l → l < m →
          okAt s.actions (navPos s.actions.length delta start l) = false)) := by
  by_cases hemp : s.actions = []
  · constructor
    · intro _
      rw [handleKeyPress_up_down_empty st rtl key hkey s hemp]
    · rintro ⟨i, hi⟩
      exfalso
      rw [hemp] at hi
      rcases hi with ⟨h1, h2, _⟩
      simp only [List.length_nil, Nat.cast_zero] at h2
      omega
  · obtain ⟨delta, hdelta⟩ : ∃ d : Int, d = if key = MKey.down then 1 else -1 :=
      ⟨_, rfl⟩
    obtain ⟨start, hstart⟩ : ∃ v : Int,
        v = if s.selected < 0 ∨ s.selected ≥ (s.actions.length : Int) then
              (if delta > 0 then (s.actions.length : Int) - 1 else 0)
            else s.selected := ⟨_, rfl⟩
    have hδ : delta = 1 ∨ delta = -1 := by
      rw [hdelta]; split_ifs <;> simp
    have hn : 1 ≤ s.actions.length := List.length_pos.mpr hemp
    have hs : 0 ≤ start ∧ start < (s.actions.length : Int) := by
      rw [hstart]; split_ifs <;> constructor <;> omega
    have hred := handleKeyPress_up_down st rtl key hkey s hemp delta start
      hdelta hstart
    obtain ⟨m, hm1, hm2, hm3, hm4, hm5⟩ :=
      navigate_spec s.actions delta start hδ hn hs
    have hb := navPos_bounds s.actions.length delta start hδ hn hs m hm2
    constructor
    · intro hall
      have hok : ¬(okAt s.actions (navigate s.actions delta start) = true) := by
        rw [hm3]; intro hcon; exact hall _ ⟨hb.1, hb.2, hcon⟩
      rw [hred, if_neg hok]
    · rintro ⟨i, hi⟩
      have hok : okAt s.actions (navPos s.actions.length delta start m) = true := by
        rcases hm4 with h | h
        · exact h
        · subst h
          obtain ⟨k, hk1, hk2, hk3⟩ := navPos_surj s.actions.length delta start
            hδ hn hs i ⟨hi.1, hi.2.1⟩
          rcases Nat.eq_or_lt_of_le hk2 with he | hlt
          · rw [he] at hk3
            rw [hk3]
            exact hi.2.2
          · have hfalse := hm5 k hk1 hlt
            rw [hk3, hi.2.2] at hfalse
            exact absurd hfalse (by simp)
      have hoknav : okAt s.actions (navigate s.actions delta start) = true := by
        rw [hm3]; exact hok
      constructor
      · rw [hred, if_pos hoknav]
        show selectableIdx s.actions
          (normIdx (navigate s.actions delta start) s.actions.length)
        rw [hm3, normIdx, if_pos ⟨hb.1, hb.2⟩]
        exact ⟨hb.1, hb.2, hok⟩
      · refine ⟨delta, start, m, hdelta, hstart, hm1, hm2, ?_, hm5⟩
        rw [hred, if_pos hoknav]
        show normIdx (navigate s.actions delta start) s.actions.length = _
        rw [hm3, normIdx, if_pos ⟨hb.1, hb.2⟩]

/-! ## Concrete fixtures used by witnesses -/

def testStyle : MenuStyle :=
  { skip := 2
    itemPaddingLeft := 4
    itemPaddingTop := 3
    itemPaddingRight := 4
    itemPaddingBottom := 3
    fontHeight := 8
    separatorPaddingTop := 2
    separatorPaddingBottom := 2
    separatorWidth := 1
    arrowWidth := 9
    toggleWidth := 20
    itemToggleShift := 5
    widthMin := 44
    widthMax := 300
    textMaxWidth := fun t => 7 * t.length
    fontWidth := fun t => 6 * t.length }

def actDisabled : MAction := ⟨"Paste".toList, false, false, false, false⟩

def actSep : MAction := ⟨[], true, true, false, false⟩

def actOpen : MAction := ⟨"Open\tCtrl+O".toList, true, false, false, false⟩

def testC2State : MenuState :=
  ⟨[actDisabled, actSep, actOpen], -1, -1, false, false, 44, 37⟩

theorem C2_up_down_navigation_witness :
    (MKey.down = MKey.up ∨ MKey.down = MKey.down) ∧
    (∃ i : Int, selectableIdx testC2State.actions i) ∧
    selectableIdx testC2State.actions
      ((handleKeyPress testStyle false MKey.down testC2State).1).selected :=
  ⟨Or.inr rfl, ⟨2, by decide⟩,
    ((C2_up_down_navigation testStyle false MKey.down (Or.inr rfl)
      testC2State).2 ⟨2, by decide⟩).1⟩

/-! ## Hit-test analysis for claim C3 -/

theorem heightsSum_nil (st : MenuStyle) : heightsSum st [] = 0 := rfl

theorem heightsSum_cons (st : MenuStyle) (a : MAction) (l : List MAction) :
    heightsSum st (a :: l) = actionHeight st a + heightsSum st l := by
  simp [heightsSum]

theorem heightsSum_take_succ (st : MenuStyle) (acts : List MAction) (i : Nat)
    (hi : i < acts.length) :
    heightsSum st (acts.take (i + 1)) =
      heightsSum st (acts.take i) + actionHeight st (acts.get ⟨i, hi⟩) := by
  have hmap : i < (acts.map (actionHeight st)).length := by simpa using hi
  simp only [heightsSum, List.map_take]
  rw [List.sum_take_succ _ _ hmap]
  simp [List.get_eq_getElem, List.getElem_map]

theorem aget_coe (acts : List MAction) (i : Nat) (hi : i < acts.length) :
    aget acts (i : Int) = acts.get ⟨i, hi⟩ := by
  simp [aget, hi]

/-- Structured companion of the `updateSelected` scan loop. -/
def hitSpec (st : MenuStyle) : List MAction → Int → Nat
  | [], _ => 0
  | a :: rest, p =>
    if p < (actionHeight st a : Int) then 0
    else hitSpec st rest (p - actionHeight st a) + 1

theorem hitGo_eq_hitSpec (st : MenuStyle) (acts : List MAction) :
    ∀ (p k : Int), hitGo st acts p k = k + hitSpec st acts p := by
  induction acts with
  | nil => intro p k; simp [hitGo, hitSpec]
  | cons a rest ih =>
    intro p k
    show (if p < (actionHeight st a : Int) then k else _) = _
    by_cases hc : p < (actionHeight st a : Int)
    · rw [if_pos hc]
      simp [hitSpec, hc]
    · rw [if_neg hc]
      rw [ih (p - actionHeight st a) (k + 1)]
      simp only [hitSpec, if_neg hc]
      push_cast
      ring


/-- The scan lands on index `i` exactly when the accumulated heights put the
(nonnegative) offset `p` inside item `i`'s span. -/
theorem hitSpec_span (st : MenuStyle) (acts : List MAction) :
    ∀ (p : Int) (i : Nat), 0 ≤ p → i < acts.length →
      (hitSpec st acts p = i ↔
        ((heightsSum st (acts.take i) : Int) ≤ p ∧
          p < (heightsSum st (acts.take (i + 1)) : Int))) := by
  induction acts with
  | nil => intro p i _ hi; exact absurd hi (by simp)
  | cons a rest ih =>
    intro p i hp hi
    cases i with
    | zero =>
      simp only [hitSpec, List.take_succ_cons, List.take_zero, heightsSum_cons,
        heightsSum_nil]
      split_ifs with hcond
      · constructor
        · intro _
          push_cast
          exact ⟨hp, by omega⟩
        · intro _; rfl
      · constructor
        · intro hcon; exact absurd hcon (by simp)
        · rintro ⟨_, h2⟩
          exfalso
          push_cast at h2
          omega
    | succ j =>
      have hj : j < rest.length := by simpa using hi
      have hihj := ih (p - (actionHeight st a : Int)) j
      simp only [hitSpec, List.take_succ_cons, heightsSum_cons]
      split_ifs with hcond
      · constructor
        · intro hcon; exact hcon.elim
        · rintro ⟨h1, _⟩
          exfalso
          have hg : (0 : Int) ≤ (heightsSum st (List.take j rest) : Int) := by
            positivity
          push_cast at h1
          omega
      · have hp' : 0 ≤ p - (actionHeight st a : Int) := by omega
        have hiff := hihj hp' hj
        constructor
        · intro hcon
          obtain ⟨h1, h2⟩ := hiff.mp (Nat.succ_injective hcon)
          push_cast
          constructor <;> omega
        · rintro ⟨h1, h2⟩
          push_cast at h1 h2
          have heq : hitSpec st rest (p - (actionHeight st a : Int)) = j :=
            hiff.mpr ⟨by omega, by omega⟩
          rw [heq]

theorem hitSpec_ge_length (st : MenuStyle) (acts : List MAction) (p : Int)
    (hp : 0 ≤ p) (h : (heightsSum st acts : Int) ≤ p) :
    hitSpec st acts p = acts.length := by
  induction acts generalizing p with
  | nil => simp [hitSpec]
  | cons a rest ih =>
    rw [heightsSum_cons] at h
    push_cast at h
    simp only [hitSpec]
    rw [if_neg (by omega)]
    rw [ih (p - actionHeight st a) (by omega) (by omega)]
    simp

/-- An action's vertical span: `itemTop i ≤ y < itemTop i + height i`. -/
def spanContains (st : MenuStyle) (acts : List MAction) (i : Nat) (y : Int) :
    Prop :=
  itemTop st acts i ≤ y ∧
    y < itemTop st acts i + actionHeight st (aget acts i)

instance (st : MenuStyle) (acts : List MAction) (i : Nat) (y : Int) :
    Decidable (spanContains st acts i y) := by
  unfold spanContains; infer_instance

theorem itemTop_coe (st : MenuStyle) (acts : List MAction) (i : Nat) :
    itemTop st acts (i : Int) = st.skip + heightsSum st (acts.take i) := by
  simp [itemTop]

/-- C3: `updateSelected` is a no-op outside mouse-selection mode; otherwise a
pointer inside item `i`'s vertical span selects `i` exactly when item `i` is
enabled and not a separator, and every other position (above the first item,
below the last, or over a disabled/separator item) selects `-1`. -/
theorem C3_update_selected (st : MenuStyle) (s : MenuState) (y : Int) :
    (¬s.mouseSelection → updateSelected st y s = s) ∧
    (s.mouseSelection →
      (∀ i : Nat, i < s.actions.length → spanContains st s.actions i y →
        (updateSelected st y s).selected =
          (if (aget s.actions (i : Int)).enabled
              ∧ ¬(aget s.actions (i : Int)).separator
           then (i : Int) else -1)) ∧
      ((∀ i : Nat, i < s.actions.length → ¬spanContains st s.actions i y) →
        (updateSelected st y s).selected = -1)) := by
  constructor
  · intro h
    simp [updateSelected, h]
  · intro hm
    have hms : s.mouseSelection = true := hm
    have hred : updateSelected st y s =
        setSelected s
          (if 0 ≤ hitScan st s.actions (y - st.skip)
              ∧ hitScan st s.actions (y - st.skip) < s.actions.length
              ∧ (aget s.actions (hitScan st s.actions (y - st.skip))).enabled
              ∧ ¬(aget s.actions (hitScan st s.actions (y - st.skip))).separator
            then hitScan st s.actions (y - st.skip) else -1) := by
      unfold updateSelected
      rw [if_neg (by simp [hms])]
    constructor
    · intro i hi hspan
      obtain ⟨hs1, hs2⟩ := hspan
      rw [itemTop_coe] at hs1 hs2
      have hg0 : (0 : Int) ≤ (heightsSum st (s.actions.take i) : Int) := by
        positivity
      have hp0 : (0 : Int) ≤ y - st.skip := by omega
      have hagets : aget s.actions (i : Int) = s.actions.get ⟨i, hi⟩ :=
        aget_coe s.actions i hi
      have hup : heightsSum st (s.actions.take (i + 1)) =
          heightsSum st (s.actions.take i)
            + actionHeight st (s.actions.get ⟨i, hi⟩) :=
        heightsSum_take_succ st s.actions i hi
      have hsel : hitScan st s.actions (y - st.skip) = (i : Int) := by
        rw [hitScan, if_neg (by omega), hitGo_eq_hitSpec]
        have hspec := (hitSpec_span st s.actions (y - st.skip) i hp0 hi).mpr
          (by rw [hup]; push_cast; rw [← hagets]; omega)
        rw [hspec]
        simp
      rw [hred, hsel]
      by_cases hok : (aget s.actions (i : Int)).enabled
          ∧ ¬(aget s.actions (i : Int)).separator
      · rw [if_pos ⟨by positivity, by exact_mod_cast hi, hok.1, hok.2⟩,
          if_pos hok]
        show normIdx (i : Int) s.actions.length = (i : Int)
        rw [normIdx, if_pos ⟨by positivity, by exact_mod_cast hi⟩]
      · rw [if_neg (by tauto), if_neg hok]
        show normIdx (-1 : Int) s.actions.length = (-1 : Int)
        rw [normIdx, if_neg (by omega)]
    · intro hnone
      rw [hred]
      by_cases hp0 : y - st.skip < 0
      · have hsel : hitScan st s.actions (y - st.skip) = -1 := by
          rw [hitScan, if_pos hp0]
        rw [hsel, if_neg (by rintro ⟨h0, -⟩; omega)]
        show normIdx (-1 : Int) s.actions.length = (-1 : Int)
        rw [normIdx, if_neg (by omega)]
      · push_neg at hp0
        have hsel : hitScan st s.actions (y - st.skip)
            = (hitSpec st s.actions (y - st.skip) : Int) := by
          rw [hitScan, if_neg (by omega), hitGo_eq_hitSpec]
          simp
        by_cases hlt : hitSpec st s.actions (y - st.skip) < s.actions.length
        · exfalso
          have hspan := (hitSpec_span st s.actions (y - st.skip) _ hp0 hlt).mp
            rfl
          apply hnone (hitSpec st s.actions (y - st.skip)) hlt
          constructor
          · rw [itemTop_coe]; omega
          · rw [itemTop_coe, aget_coe s.actions _ hlt]
            have h2 := hspan.2
            rw [heightsSum_take_succ st s.actions _ hlt] at h2
            push_cast at h2
            omega
        · rw [hsel, if_neg ?notok]
          case notok =>
            rintro ⟨-, hb, -⟩
            push_neg at hlt
            have : (s.actions.length : Int) ≤ (hitSpec st s.actions (y - st.skip) : Int) := by
              exact_mod_cast hlt
            omega
          show normIdx (-1 : Int) s.actions.length = (-1 : Int)
          rw [normIdx, if_neg (by omega)]

def testC3State : MenuState :=
  ⟨[actDisabled, actSep, actOpen], -1, -1, true, false, 44, 37⟩

theorem C3_update_selected_witness :
    (testC3State.mouseSelection = true) ∧
    2 < testC3State.actions.length ∧
    spanContains testStyle testC3State.actions 2 25 ∧
    (updateSelected testStyle 25 testC3State).selected = 2 := by
  refine ⟨rfl, by decide, by decide, ?_⟩
  have h := ((C3_update_selected testStyle testC3State 25).2
    (by decide)).1 2 (by decide) (by decide)
  rw [h]
  decide

/-- C4: pressing and then releasing while the same selected, enabled item
stays selected fires the triggered callback exactly once, with that action,
its vertical offset and the input source; moving the selection to a
different index between press and release fires nothing; in both cases the
release resets `pressed` to `-1`, and a keyboard press performs press and
release together. -/
theorem C4_press_release_trigger (st : MenuStyle) (s : MenuState) (i j : Int)
    (hsel : s.selected = i) (hb1 : 0 ≤ i) (hb2 : i < s.actions.length)
    (hen : (aget s.actions i).enabled = true)
    (hms : s.mouseSelection = true) :
    ((itemPressed st TriggeredSource.Mouse s).2 ++
        (itemReleased st TriggeredSource.Mouse
          (itemPressed st TriggeredSource.Mouse s).1).2 =
      [⟨aget s.actions i, itemTop st s.actions i, TriggeredSource.Mouse⟩] ∧
     (itemReleased st TriggeredSource.Mouse
        (itemPressed st TriggeredSource.Mouse s).1).1.pressed = -1) ∧
    (normIdx j s.actions.length ≠ i →
      (itemPressed st TriggeredSource.Mouse s).2 ++
        (itemReleased st TriggeredSource.Mouse
          (setSelected (itemPressed st TriggeredSource.Mouse s).1 j)).2 = [] ∧
      (itemReleased st TriggeredSource.Mouse
        (setSelected (itemPressed st TriggeredSource.Mouse s).1 j)).1.pressed
        = -1) ∧
    ((itemPressed st TriggeredSource.Keyboard s).2 =
      [⟨aget s.actions i, itemTop st s.actions i, TriggeredSource.Keyboard⟩] ∧
     (itemPressed st TriggeredSource.Keyboard s).1.pressed = -1) := by
  have hn := s.actions.length
  have hnormi : normIdx i s.actions.length = i := by
    rw [normIdx, if_pos ⟨hb1, hb2⟩]
  have hnormneg : normIdx (-1) s.actions.length = -1 := by
    rw [normIdx, if_neg (by omega)]
  have hpress : itemPressed st TriggeredSource.Mouse s = (setPressed s i, []) := by
    unfold itemPressed
    rw [if_neg (by simp [hms])]
    rw [if_pos (by rw [hsel]; exact ⟨hb1, hb2, hen⟩)]
    rw [if_pos rfl, hsel]
  have hs1 : (setPressed s i).pressed = i := by
    simp [setPressed, hnormi]
  have hs1sel : (setPressed s i).selected = i := by
    simp [setPressed, hsel]
  have hs1acts : (setPressed s i).actions = s.actions := rfl
  constructor
  · rw [hpress]
    have hrel : itemReleased st TriggeredSource.Mouse (setPressed s i) =
        (setPressed (setPressed s i) (-1),
         [⟨aget s.actions i, itemTop st s.actions i, TriggeredSource.Mouse⟩]) := by
      unfold itemReleased
      rw [if_pos (by rw [hs1, hs1acts]; exact ⟨hb1, hb2⟩)]
      rw [hs1]
      rw [if_pos (by simp [setPressed, hs1sel, hsel])]
      simp [setPressed, hsel]
    rw [hrel]
    refine ⟨rfl, ?_⟩
    simp [setPressed, hnormneg]
  constructor
  · intro hj
    rw [hpress]
    have hs3p : (setSelected (setPressed s i) j).pressed = i := by
      simp [setSelected, hs1]
    have hs3sel : (setSelected (setPressed s i) j).selected =
        normIdx j s.actions.length := rfl
    have hrel : itemReleased st TriggeredSource.Mouse
        (setSelected (setPressed s i) j) =
        (setPressed (setSelected (setPressed s i) j) (-1), []) := by
      unfold itemReleased
      rw [if_pos (by rw [hs3p]; exact ⟨hb1, by simpa using hb2⟩)]
      rw [hs3p]
      rw [if_neg (by
        have hsel4 : (setPressed (setSelected (setPressed s i) j) (-1)).selected
            = normIdx j s.actions.length := rfl
        intro hcon
        rw [hsel4] at hcon
        exact hj hcon.symm)]
    rw [hrel]
    refine ⟨rfl, ?_⟩
    simp [setPressed, setSelected, normIdx]
  · have hkb : itemPressed st TriggeredSource.Keyboard s =
        itemReleased st TriggeredSource.Keyboard (setPressed s i) := by
      unfold itemPressed
      rw [if_neg (by simp)]
      rw [if_pos (by rw [hsel]; exact ⟨hb1, hb2, hen⟩)]
      rw [if_neg (by simp), hsel]
    have hrel : itemReleased st TriggeredSource.Keyboard (setPressed s i) =
        (setPressed (setPressed s i) (-1),
         [⟨aget s.actions i, itemTop st s.actions i, TriggeredSource.Keyboard⟩]) := by
      unfold itemReleased
      rw [if_pos (by rw [hs1, hs1acts]; exact ⟨hb1, hb2⟩)]
      rw [hs1]
      rw [if_pos (by simp [setPressed, hs1sel, hsel])]
      simp [setPressed, hsel]
    rw [hkb, hrel]
    refine ⟨rfl, ?_⟩
    simp [setPressed, hnormneg]

def testC4State : MenuState :=
  ⟨[actDisabled, actSep, actOpen], 2, -1, true, false, 44, 37⟩

theorem C4_press_release_trigger_witness :
    (testC4State.selected = 2 ∧ (0 : Int) ≤ 2 ∧
      (2 : Int) < testC4State.actions.length ∧
      (aget testC4State.actions 2).enabled = true ∧
      testC4State.mouseSelection = true) ∧
    (itemPressed testStyle TriggeredSource.Mouse testC4State).2 ++
      (itemReleased testStyle TriggeredSource.Mouse
        (itemPressed testStyle TriggeredSource.Mouse testC4State).1).2 =
      [⟨aget testC4State.actions 2, itemTop testStyle testC4State.actions 2,
        TriggeredSource.Mouse⟩] :=
  ⟨⟨rfl, by decide, by decide, by decide, rfl⟩,
   ((C4_press_release_trigger testStyle testC4State 2 0 rfl (by decide)
      (by decide) (by decide) rfl).1).1⟩

/-! ## Clear/append analysis for claim C5 -/

/-- A sequence of `addAction` calls; each item carries the pointer position
observed during its append (`QCursor::pos()`). -/
def appendAll (st : MenuStyle) (s : MenuState) (items : List (Int × MAction)) :
    MenuState :=
  items.foldl (fun acc p => addAction st p.1 acc p.2) s

theorem updateSelected_fields (st : MenuStyle) (y : Int) (s : MenuState) :
    (updateSelected st y s).pressed = s.pressed ∧
    (updateSelected st y s).height = s.height ∧
    (updateSelected st y s).actions = s.actions ∧
    (updateSelected st y s).mouseSelection = s.mouseSelection ∧
    (updateSelected st y s).width = s.width := by
  unfold updateSelected
  split_ifs <;> simp [setSelected]

theorem addAction_fields (st : MenuStyle) (y : Int) (s : MenuState)
    (a : MAction) :
    (addAction st y s a).pressed = s.pressed ∧
    (addAction st y s a).height = s.height + actionHeight st a ∧
    (addAction st y s a).actions = s.actions ++ [a] ∧
    (addAction st y s a).mouseSelection = s.mouseSelection ∧
    (¬s.mouseSelection → (addAction st y s a).selected = s.selected) := by
  unfold addAction
  have h := updateSelected_fields st y
    { s with actions := s.actions ++ [a]
             width := processActionWidth st a (max s.width st.widthMin)
             height := s.height + actionHeight st a }
  refine ⟨h.1, h.2.1, h.2.2.1, h.2.2.2.1, ?_⟩
  intro hms
  unfold updateSelected
  rw [if_pos (by simpa using hms)]

theorem appendAll_fields (st : MenuStyle) (items : List (Int × MAction)) :
    ∀ s : MenuState,
      (appendAll st s items).pressed = s.pressed ∧
      (appendAll st s items).height =
        s.height + heightsSum st (items.map Prod.snd) ∧
      (appendAll st s items).actions = s.actions ++ items.map Prod.snd ∧
      (appendAll st s items).mouseSelection = s.mouseSelection ∧
      (¬s.mouseSelection → (appendAll st s items).selected = s.selected) := by
  induction items with
  | nil =>
    intro s
    simp [appendAll, heightsSum]
  | cons p rest ih =>
    intro s
    have hstep := addAction_fields st p.1 s p.2
    have hrest := ih (addAction st p.1 s p.2)
    have e : appendAll st s (p :: rest) =
        appendAll st (addAction st p.1 s p.2) rest := rfl
    rw [e]
    refine ⟨?_, ?_, ?_, ?_, ?_⟩
    · rw [hrest.1, hstep.1]
    · rw [hrest.2.1, hstep.2.1]
      simp [heightsSum_cons]
      omega
    · rw [hrest.2.2.1, hstep.2.2.1]
      simp
    · rw [hrest.2.2.2.1, hstep.2.2.2.1]
    · intro hms
      have hms' : ¬(addAction st p.1 s p.2).mouseSelection = true := by
        rw [hstep.2.2.2.1]; simpa using hms
      rw [hrest.2.2.2.2 (by simpa using hms'), hstep.2.2.2.2 hms]

theorem normIdx_neg_one (n : Nat) : normIdx (-1) n = -1 := by
  rw [normIdx, if_neg (by omega)]

theorem clearActions_fields (st : MenuStyle) (s : MenuState) :
    (clearActions st s).selected = -1 ∧
    (clearActions st s).pressed = -1 ∧
    (clearActions st s).actions = [] ∧
    (clearActions st s).height = emptyHeight st ∧
    (clearActions st s).mouseSelection = s.mouseSelection := by
  unfold clearActions setSelected setPressed
  dsimp only
  exact ⟨normIdx_neg_one _, normIdx_neg_one _, rfl, rfl, rfl⟩

def testC5Start : MenuState := ⟨[], -1, -1, true, false, 44, 4⟩

/-- C5 counterexample: with mouse-selection mode active and the pointer over
the newly appended enabled item (`addAction` re-evaluates the hover via
`updateSelected(QCursor::pos())`, line 136), `clear()` followed by one
`append()` leaves `selected = 0`, not `-1`. -/
theorem C5_clear_append_counterexample :
    (appendAll testStyle (clearActions testStyle testC5Start)
      [(5, actOpen)]).selected = 0 ∧
    ¬(appendAll testStyle (clearActions testStyle testC5Start)
      [(5, actOpen)]).selected = -1 := by
  constructor <;> decide

/-- C5 (amended): after `clear()` followed by any number of `append()` calls
the pressed index is `-1` and the height is the fixed top/bottom padding
plus the sum of per-item heights; the selected index is `-1` provided the
menu is not in mouse-selection mode (otherwise the hover re-evaluation in
`append` may select an enabled item under the pointer). -/
theorem C5_clear_append (st : MenuStyle) (s : MenuState)
    (items : List (Int × MAction)) :
    (appendAll st (clearActions st s) items).pressed = -1 ∧
    (appendAll st (clearActions st s) items).height =
      emptyHeight st + heightsSum st (items.map Prod.snd) ∧
    (appendAll st (clearActions st s) items).actions = items.map Prod.snd ∧
    (¬s.mouseSelection →
      (appendAll st (clearActions st s) items).selected = -1) := by
  have hc := clearActions_fields st s
  have ha := appendAll_fields st items (clearActions st s)
  refine ⟨?_, ?_, ?_, ?_⟩
  · rw [ha.1, hc.2.1]
  · rw [ha.2.1, hc.2.2.2.1]
  · rw [ha.2.2.1, hc.2.2.1]
    simp
  · intro hms
    have hms' : ¬(clearActions st s).mouseSelection = true := by
      rw [hc.2.2.2.2]; simpa using hms
    rw [ha.2.2.2.2 (by simpa using hms'), hc.1]

theorem C5_clear_append_witness :
    (¬(false : Bool) = true) ∧
    (appendAll testStyle
      (clearActions testStyle ⟨[], -1, -1, false, false, 44, 4⟩)
      [(5, actOpen), (100, actSep)]).pressed = -1 ∧
    (appendAll testStyle
      (clearActions testStyle ⟨[], -1, -1, false, false, 44, 4⟩)
      [(5, actOpen), (100, actSep)]).selected = -1 :=
  ⟨by decide,
   (C5_clear_append testStyle ⟨[], -1, -1, false, false, 44, 4⟩
     [(5, actOpen), (100, actSep)]).1,
   (C5_clear_append testStyle ⟨[], -1, -1, false, false, 44, 4⟩
     [(5, actOpen), (100, actSep)]).2.2.2 (by decide)⟩

/-! ## Width analysis for claim C6 -/

/-- The spec-side "accepted width": the required width clamped between the
configured minimum and maximum. -/
def acceptedWidth (st : MenuStyle) (a : MAction) : Int :=
  clampI (goodWidth st a) st.widthMin st.widthMax

/-- The spec-side overall width: the maximum of the accepted widths of all
contributing (non-separator, non-empty-text) actions, at least `widthMin`. -/
def specWidth (st : MenuStyle) (acts : List MAction) : Int :=
  acts.foldl
    (fun w a => if a.separator ∨ a.text = [] then w else max w (acceptedWidth st a))
    st.widthMin

theorem processActionWidth_bounds (st : MenuStyle) (a : MAction) (w : Int)
    (h1 : st.widthMin ≤ w) (h2 : w ≤ st.widthMax) :
    st.widthMin ≤ processActionWidth st a w ∧
      processActionWidth st a w ≤ st.widthMax := by
  unfold processActionWidth clampI
  split_ifs <;> omega

theorem processActionWidth_eq_max (st : MenuStyle) (a : MAction) (w : Int)
    (h1 : st.widthMin ≤ w) (h2 : w ≤ st.widthMax) :
    processActionWidth st a w =
      if a.separator ∨ a.text = [] then w else max w (acceptedWidth st a) := by
  unfold processActionWidth acceptedWidth clampI
  simp only [max_def]
  split_ifs <;> omega

theorem menuWidth_fold (st : MenuStyle) (h : st.widthMin ≤ st.widthMax) :
    ∀ (acts : List MAction) (w : Int), st.widthMin ≤ w → w ≤ st.widthMax →
      acts.foldl (fun w a => processActionWidth st a w) w =
        acts.foldl
          (fun w a =>
            if a.separator ∨ a.text = [] then w else max w (acceptedWidth st a))
          w ∧
      st.widthMin ≤ acts.foldl (fun w a => processActionWidth st a w) w ∧
      acts.foldl (fun w a => processActionWidth st a w) w ≤ st.widthMax := by
  intro acts
  induction acts with
  | nil => intro w h1 h2; exact ⟨rfl, h1, h2⟩
  | cons a rest ih =>
    intro w h1 h2
    have hb := processActionWidth_bounds st a w h1 h2
    have he := processActionWidth_eq_max st a w h1 h2
    simp only [List.foldl_cons]
    obtain ⟨ihe, ih1, ih2⟩ := ih (processActionWidth st a w) hb.1 hb.2
    exact ⟨by rw [ihe, he], ih1, ih2⟩

theorem updateSelected_width (st : MenuStyle) (y : Int) (s : MenuState) :
    (updateSelected st y s).width = s.width :=
  (updateSelected_fields st y s).2.2.2.2

/-- C6: every accepted width is the required width clamped between the
configured minimum and maximum, the overall width is the maximum over all
contributing actions' accepted widths (recomputed from scratch on any
action change), `append` keeps the cached width equal to that recompute,
and the overall width always stays within `[widthMin, widthMax]`. -/
theorem C6_width_invariant (st : MenuStyle) (h : st.widthMin ≤ st.widthMax) :
    (∀ acts : List MAction,
      st.widthMin ≤ menuWidth st acts ∧ menuWidth st acts ≤ st.widthMax) ∧
    (∀ acts : List MAction, menuWidth st acts = specWidth st acts) ∧
    (∀ (s : MenuState) (y : Int) (a : MAction),
      s.width = menuWidth st s.actions →
      (addAction st y s a).width = menuWidth st (s.actions ++ [a])) ∧
    (∀ (s : MenuState) (i : Nat) (b : MAction),
      (actionChangedOp st i b s).width = specWidth st (s.actions.set i b)) := by
  have hfold := menuWidth_fold st h
  refine ⟨?_, ?_, ?_, ?_⟩
  · intro acts
    exact ⟨(hfold acts st.widthMin (le_refl _) h).2.1,
           (hfold acts st.widthMin (le_refl _) h).2.2⟩
  · intro acts
    exact (hfold acts st.widthMin (le_refl _) h).1
  · intro s y a hw
    have hb := (hfold s.actions st.widthMin (le_refl _) h).2
    have hmax : max s.width st.widthMin = menuWidth st s.actions := by
      rw [hw]
      exact max_eq_left hb.1
    have e1 : (addAction st y s a).width
        = processActionWidth st a (max s.width st.widthMin) := by
      unfold addAction
      rw [updateSelected_width]
    rw [e1, hmax]
    show _ = (s.actions ++ [a]).foldl (fun w a => processActionWidth st a w)
      st.widthMin
    rw [List.foldl_append]
    rfl
  · intro s i b
    show menuWidth st (s.actions.set i b) = specWidth st (s.actions.set i b)
    exact (hfold (s.actions.set i b) st.widthMin (le_refl _) h).1

theorem C6_width_invariant_witness :
    testStyle.widthMin ≤ testStyle.widthMax ∧
    testStyle.widthMin ≤ menuWidth testStyle [actDisabled, actSep, actOpen] ∧
    menuWidth testStyle [actDisabled, actSep, actOpen] ≤ testStyle.widthMax ∧
    menuWidth testStyle [actDisabled, actSep, actOpen] =
      specWidth testStyle [actDisabled, actSep, actOpen] :=
  ⟨by decide,
   ((C6_width_invariant testStyle (by decide)).1 [actDisabled, actSep, actOpen]).1,
   ((C6_width_invariant testStyle (by decide)).1 [actDisabled, actSep, actOpen]).2,
   (C6_width_invariant testStyle (by decide)).2.1 [actDisabled, actSep, actOpen]⟩

/-! ## Index-validity analysis for claim C7 -/

theorem validIdx_normIdx (i : Int) (n : Nat) : validIdx (normIdx i n) n := by
  unfold validIdx normIdx
  split_ifs with h
  · exact Or.inr h
  · exact Or.inl rfl

theorem validIdx_mono (i : Int) (n : Nat) (h : validIdx i n) :
    validIdx i (n + 1) := by
  rcases h with h | h
  · exact Or.inl h
  · exact Or.inr ⟨h.1, by push_cast; omega⟩

theorem IndexInv_setSelected (s : MenuState) (i : Int) (h : IndexInv s) :
    IndexInv (setSelected s i) :=
  ⟨validIdx_normIdx i s.actions.length, h.2⟩

theorem IndexInv_setPressed (s : MenuState) (i : Int) (h : IndexInv s) :
    IndexInv (setPressed s i) :=
  ⟨h.1, validIdx_normIdx i s.actions.length⟩

theorem IndexInv_updateSelected (st : MenuStyle) (y : Int) (s : MenuState)
    (h : IndexInv s) : IndexInv (updateSelected st y s) := by
  unfold updateSelected
  dsimp only
  split_ifs
  all_goals first
  | exact h
  | exact IndexInv_setSelected s _ h

theorem IndexInv_clearActions (st : MenuStyle) (s : MenuState) :
    IndexInv (clearActions st s) := by
  have hc := clearActions_fields st s
  constructor
  · rw [show (clearActions st s).selected = -1 from hc.1]
    exact Or.inl rfl
  · rw [show (clearActions st s).pressed = -1 from hc.2.1]
    exact Or.inl rfl

theorem IndexInv_addAction (st : MenuStyle) (y : Int) (s : MenuState)
    (a : MAction) (h : IndexInv s) : IndexInv (addAction st y s a) := by
  unfold addAction
  apply IndexInv_updateSelected
  constructor
  · show validIdx s.selected (s.actions ++ [a]).length
    rw [List.length_append, List.length_singleton]
    exact validIdx_mono _ _ h.1
  · show validIdx s.pressed (s.actions ++ [a]).length
    rw [List.length_append, List.length_singleton]
    exact validIdx_mono _ _ h.2

theorem IndexInv_setShowSource (s : MenuState) (src : TriggeredSource)
    (h : IndexInv s) : IndexInv (setShowSource s src) :=
  IndexInv_setSelected _ _ ⟨h.1, h.2⟩

theorem IndexInv_itemReleased (st : MenuStyle) (src : TriggeredSource)
    (s : MenuState) (h : IndexInv s) : IndexInv (itemReleased st src s).1 := by
  unfold itemReleased
  dsimp only
  split_ifs
  all_goals first
  | exact h
  | exact IndexInv_setPressed s _ h

theorem IndexInv_itemPressed (st : MenuStyle) (src : TriggeredSource)
    (s : MenuState) (h : IndexInv s) : IndexInv (itemPressed st src s).1 := by
  unfold itemPressed
  dsimp only
  split_ifs
  all_goals first
  | exact h
  | exact IndexInv_setPressed s _ h
  | exact IndexInv_itemReleased st _ _ (IndexInv_setPressed s _ h)

theorem IndexInv_clearSelection (s : MenuState) (h : IndexInv s) :
    IndexInv (clearSelection s) :=
  IndexInv_setSelected _ _ ⟨h.1, h.2⟩

theorem IndexInv_clearMouseSelection (s : MenuState) (h : IndexInv s) :
    IndexInv (clearMouseSelection s) := by
  unfold clearMouseSelection
  split_ifs
  · exact IndexInv_clearSelection s h
  · exact h

theorem IndexInv_handleMouseMove (st : MenuStyle) (x y : Int) (s : MenuState)
    (h : IndexInv s) : IndexInv (handleMouseMove st x y s) := by
  unfold handleMouseMove
  split_ifs
  · exact IndexInv_updateSelected st y _ ⟨h.1, h.2⟩
  · exact IndexInv_clearMouseSelection s h

theorem IndexInv_handleMousePress (st : MenuStyle) (x y : Int) (s : MenuState)
    (h : IndexInv s) : IndexInv (handleMousePress st x y s).1 := by
  unfold handleMousePress
  dsimp only
  split_ifs
  all_goals first
  | exact IndexInv_itemPressed st _ _ (IndexInv_handleMouseMove st x y s h)
  | exact IndexInv_handleMouseMove st x y s h

theorem IndexInv_handleMouseRelease (st : MenuStyle) (x y : Int)
    (s : MenuState) (h : IndexInv s) :
    IndexInv (handleMouseRelease st x y s).1 :=
  IndexInv_itemReleased st _ _ (IndexInv_handleMouseMove st x y s h)

/-- `setSelected` establishes the invariant as soon as the pressed index is
valid; the state it is applied to may differ from `s` only in fields other
than `pressed`/`actions`. -/
theorem IndexInv_setSelected_any (s : MenuState) (i : Int)
    (h : validIdx s.pressed s.actions.length) : IndexInv (setSelected s i) :=
  ⟨validIdx_normIdx i s.actions.length, h⟩

set_option maxHeartbeats 1600000 in
theorem IndexInv_handleKeyPress (st : MenuStyle) (rtl : Bool) (k : MKey)
    (s : MenuState) (h : IndexInv s) : IndexInv (handleKeyPress st rtl k s).1 := by
  unfold handleKeyPress
  dsimp only
  split_ifs
  all_goals first
  | exact IndexInv_itemPressed st _ _ h
  | exact h
  | exact IndexInv_setSelected_any _ _ h.2

theorem IndexInv_actionChangedOp (st : MenuStyle) (i : Nat) (a : MAction)
    (s : MenuState) (h : IndexInv s) : IndexInv (actionChangedOp st i a s) := by
  unfold actionChangedOp
  constructor
  · show validIdx s.selected (s.actions.set i a).length
    rw [List.length_set]
    exact h.1
  · show validIdx s.pressed (s.actions.set i a).length
    rw [List.length_set]
    exact h.2

/-- C7: every operation of the menu state machine preserves the invariant
that `selected` and `pressed` are each `-1` or a valid index; assigning an
out-of-range index through `setSelected` or `setPressed` silently becomes
`-1` (the `int`-vs-`size_t` comparison sends every negative index past
`size()`). -/
theorem C7_index_validity (st : MenuStyle) :
    (∀ (op : MenuOp) (s : MenuState), IndexInv s → IndexInv (stepOp st op s)) ∧
    (∀ (s : MenuState) (i : Int),
      ¬(0 ≤ i ∧ i < (s.actions.length : Int)) →
      (setSelected s i).selected = -1 ∧ (setPressed s i).pressed = -1) := by
  constructor
  · intro op s h
    cases op with
    | clear => exact IndexInv_clearActions st s
    | append y a => exact IndexInv_addAction st y s a h
    | showSource src => exact IndexInv_setShowSource s src h
    | moveMouse x y => exact IndexInv_handleMouseMove st x y s h
    | pressMouse x y => exact IndexInv_handleMousePress st x y s h
    | releaseMouse x y => exact IndexInv_handleMouseRelease st x y s h
    | key rtl k => exact IndexInv_handleKeyPress st rtl k s h
    | select i => exact IndexInv_setSelected s i h
    | press i => exact IndexInv_setPressed s i h
    | deselect => exact IndexInv_clearSelection s h
    | changeAction i a => exact IndexInv_actionChangedOp st i a s h
  · intro s i hi
    constructor
    · show normIdx i s.actions.length = -1
      rw [normIdx, if_neg hi]
    · show normIdx i s.actions.length = -1
      rw [normIdx, if_neg hi]

theorem C7_index_validity_witness :
    IndexInv testC2State ∧
    IndexInv (stepOp testStyle (MenuOp.select 7) testC2State) ∧
    ¬(0 ≤ (7 : Int) ∧ (7 : Int) < (testC2State.actions.length : Int)) ∧
    (setSelected testC2State 7).selected = -1 :=
  ⟨⟨Or.inl rfl, Or.inl rfl⟩,
   (C7_index_validity testStyle).1 (MenuOp.select 7) testC2State
     ⟨Or.inl rfl, Or.inl rfl⟩,
   by decide,
   ((C7_index_validity testStyle).2 testC2State 7 (by decide)).1⟩

end Menu
